import Mathlib

/-
Shallow embedding of the routing-decision and statistics engine of the
adaptive-routing repository (src/routing/adaptive_routing.py,
src/routing/ecmp_routing.py, src/routing/monitor.py, src/analyze_results.py,
src/topologies/leaf_spine.py), with theorems settling the frozen claims
about it.

Python floats are modelled as exact rationals (ℚ); real-valued statistics
(numpy std/mean in analyze_results.py) as ℝ.  Python dicts are modelled as
insertion-ordered association lists: assignment updates an existing key in
place and appends a new key at the end, and lookup returns the value of the
first (unique) matching key — exactly the observable behaviour of a Python
dict.
-/

namespace AdaptiveRouting

/-- Python dict lookup: `d.get(k)` / `k in d`. -/
def dlookup {K V : Type} [DecidableEq K] : List (K × V) → K → Option V
  | [], _ => none
  | (k', v') :: rest, k => if k' = k then some v' else dlookup rest k

/-- Python dict assignment `d[k] = v`: update in place, append if absent. -/
def dinsert {K V : Type} [DecidableEq K] : List (K × V) → K → V → List (K × V)
  | [], k, v => [(k, v)]
  | (k', v') :: rest, k, v =>
      if k' = k then (k, v) :: rest else (k', v') :: dinsert rest k v

theorem dlookup_dinsert_self {K V : Type} [DecidableEq K]
    (d : List (K × V)) (k : K) (v : V) : dlookup (dinsert d k v) k = some v := by
  induction d with
  | nil => simp [dinsert, dlookup]
  | cons p rest ih =>
    by_cases h : p.1 = k
    · simp [dinsert, dlookup, h]
    · simp [dinsert, dlookup, h, ih]

theorem dlookup_append {K V : Type} [DecidableEq K]
    (a b : List (K × V)) (k : K) :
    dlookup (a ++ b) k =
      match dlookup a k with
      | some v => some v
      | none => dlookup b k := by
  induction a with
  | nil => simp [dlookup]
  | cons p rest ih =>
    by_cases h : p.1 = k
    · simp [dlookup, h]
    · simp [dlookup, h, ih]

theorem dinsert_of_not_mem {K V : Type} [DecidableEq K]
    (d : List (K × V)) (k : K) (v : V) (h : dlookup d k = none) :
    dinsert d k v = d ++ [(k, v)] := by
  induction d with
  | nil => simp [dinsert]
  | cons p rest ih =>
    by_cases hk : p.1 = k
    · simp [dlookup, hk] at h
    · simp only [dlookup, hk, if_neg] at h
      simp [dinsert, hk, ih h]

theorem dlookup_map_of_mem {K V : Type} [DecidableEq K]
    (f : ℕ → K) (v : ℕ → V) (hf : Function.Injective f)
    (l : List ℕ) (j : ℕ) (hj : j ∈ l) :
    dlookup (l.map fun i => (f i, v i)) (f j) = some (v j) := by
  induction l with
  | nil => cases hj
  | cons a t ih =>
    by_cases h : a = j
    · subst h; simp [dlookup]
    · have : f a ≠ f j := fun e => h (hf e)
      have hjt : j ∈ t := by
        rcases List.mem_cons.mp hj with h' | h'
        · exact absurd h'.symm h
        · exact h'
      simp [dlookup, this, ih hjt]

/-- First key of an association list whose value is looked up is the key
itself: `dlookup` over a `map` that pairs each element with its image. -/
theorem dlookup_map_self {V : Type} (f : ℕ → V) (l : List ℕ) (p : ℕ)
    (hp : p ∈ l) : dlookup (l.map fun q => (q, f q)) p = some (f p) := by
  induction l with
  | nil => cases hp
  | cons a t ih =>
    by_cases h : a = p
    · subst h; simp [dlookup]
    · have hpt : p ∈ t := by
        rcases List.mem_cons.mp hp with h' | h'
        · exact absurd h'.symm h
        · exact h'
      simp [dlookup, h, ih hpt]

/-- Python's built-in `min(xs, key=f)`: left fold keeping the current best,
replacing it only on a strictly smaller key — so the first element attaining
the minimum wins.  `none` on an empty list (Python raises `ValueError`). -/
def pyMin {α : Type} (f : α → ℚ) : List α → Option α
  | [] => none
  | x :: xs => some (xs.foldl (fun b y => if f y < f b then y else b) x)

/-- Characterisation of the fold inside `pyMin`: the result splits the list
into a strict-greater prefix, the result itself, and a not-smaller suffix. -/
theorem pyMin_fold_spec {α : Type} (f : α → ℚ) :
    ∀ (xs : List α) (x : α),
      ∃ pre post,
        x :: xs = pre ++ (xs.foldl (fun b y => if f y < f b then y else b) x) :: post
        ∧ (∀ y ∈ pre, f (xs.foldl (fun b y => if f y < f b then y else b) x) < f y)
        ∧ (∀ y ∈ post, f (xs.foldl (fun b y => if f y < f b then y else b) x) ≤ f y) := by
  intro xs
  induction xs with
  | nil =>
    intro x
    exact ⟨[], [], rfl, by simp, by simp⟩
  | cons y ys ih =>
    intro x
    rw [List.foldl_cons]
    by_cases hyx : f y < f x
    · rw [if_pos hyx]
      obtain ⟨pre, post, hdec, hpre, hpost⟩ := ih y
      set r := ys.foldl (fun b y => if f y < f b then y else b) y with hr
      have hry : f r ≤ f y := by
        cases pre with
        | nil =>
          have hyr : y = r := by simpa using congrArg (·.head?) hdec
          rw [hyr]
        | cons a pre₂ =>
          have ha : y = a := by simpa using congrArg (·.head?) hdec
          have hlt := hpre a (by simp)
          rw [← ha] at hlt
          exact le_of_lt hlt
      refine ⟨x :: pre, post, ?_, ?_, hpost⟩
      · simpa using hdec
      · intro z hz
        rcases List.mem_cons.mp hz with h' | h'
        · exact h' ▸ lt_of_le_of_lt hry hyx
        · exact hpre z h'
    · rw [if_neg hyx]
      push_neg at hyx
      obtain ⟨pre, post, hdec, hpre, hpost⟩ := ih x
      set r := ys.foldl (fun b y => if f y < f b then y else b) x with hr
      cases pre with
      | nil =>
        have hx : x = r := by simpa using congrArg (·.head?) hdec
        have hys : ys = post := by simpa [hx] using congrArg (·.tail) hdec
        refine ⟨[], y :: ys, by simp [← hx], by simp, ?_⟩
        intro z hz
        rcases List.mem_cons.mp hz with h' | h'
        · exact h' ▸ (hx ▸ hyx)
        · exact hpost z (hys ▸ h')
      | cons a pre₂ =>
        have ha : x = a := by simpa using congrArg (·.head?) hdec
        have hys : ys = pre₂ ++ r :: post := by
          simpa using congrArg (·.tail) hdec
        have hrx : f r < f x := by
          have hlt := hpre a (by simp)
          rw [← ha] at hlt
          exact hlt
        refine ⟨x :: y :: pre₂, post, by simp [hys], ?_, hpost⟩
        intro z hz
        rcases List.mem_cons.mp hz with h' | h'
        · exact h' ▸ hrx
        · rcases List.mem_cons.mp h' with h'' | h''
          · exact h'' ▸ lt_of_lt_of_le hrx hyx
          · exact hpre z (ha ▸ List.mem_cons_of_mem a h'')

/-- `pyMin` on a nonempty list returns the first element attaining the
minimal key: minimal among all, strictly below everything before it. -/
theorem pyMin_spec {α : Type} (f : α → ℚ) (l : List α) (hne : l ≠ []) :
    ∃ m, pyMin f l = some m ∧ m ∈ l ∧ (∀ y ∈ l, f m ≤ f y) ∧
      ∃ pre post, l = pre ++ m :: post ∧ ∀ y ∈ pre, f m < f y := by
  cases l with
  | nil => exact absurd rfl hne
  | cons x xs =>
    obtain ⟨pre, post, hdec, hpre, hpost⟩ := pyMin_fold_spec f xs x
    refine ⟨_, rfl, ?_, ?_, pre, post, hdec, hpre⟩
    · rw [hdec]; exact List.mem_append_right pre (List.mem_cons_self _ _)
    · intro y hy
      rw [hdec] at hy
      rcases List.mem_append.mp hy with h | h
      · exact le_of_lt (hpre y h)
      · rcases List.mem_cons.mp h with h' | h'
        · exact h' ▸ le_refl _
        · exact hpost y h'

/-- The fold inside `pyMin` only consults the key function on elements of the
list (and the seed), so agreeing key functions fold identically. -/
theorem pyMin_fold_congr {α : Type} (f g : α → ℚ) :
    ∀ (xs : List α) (x : α), (∀ z ∈ x :: xs, f z = g z) →
      xs.foldl (fun b y => if f y < f b then y else b) x
        = xs.foldl (fun b y => if g y < g b then y else b) x := by
  intro xs
  induction xs with
  | nil => intro x _; rfl
  | cons y ys ih =>
    intro x h
    rw [List.foldl_cons, List.foldl_cons]
    have hx : f x = g x := h x (by simp)
    have hy : f y = g y := h y (by simp)
    have hstep : (if f y < f x then y else x) = (if g y < g x then y else x) := by
      rw [hx, hy]
    rw [hstep]
    apply ih
    intro z hz
    rcases List.mem_cons.mp hz with h' | h'
    · subst h'
      by_cases hc : g y < g x
      · simp only [if_pos hc]; exact hy
      · simp only [if_neg hc]; exact hx
    · exact h z (by simp [h'])

theorem pyMin_congr {α : Type} (f g : α → ℚ) (l : List α)
    (h : ∀ z ∈ l, f z = g z) : pyMin f l = pyMin g l := by
  cases l with
  | nil => rfl
  | cons x xs => simpa [pyMin] using pyMin_fold_congr f g xs x h

/-! ## FlowletRouter (src/routing/adaptive_routing.py, class FlowletRouter)

`flowlet_table` maps `(src, dst, flow_id)` to `(last_time, path_id)`;
`path_loads` is a `defaultdict(lambda: 0)` read with `.get(p, 0)`. -/

/-- `(src_ip, dst_ip, flow_id)`. -/
def FlowKey : Type := ℕ × ℕ × ℕ

instance : DecidableEq FlowKey := by
  unfold FlowKey
  infer_instance

structure FlowletRouter where
  flowlet_timeout : ℚ
  flowlet_table : List (FlowKey × (ℚ × ℕ))
  path_loads : List (ℕ × ℚ)
deriving DecidableEq

/-- `self.path_loads.get(p, 0)`. -/
def FlowletRouter.loadOf (r : FlowletRouter) (p : ℕ) : ℚ :=
  (dlookup r.path_loads p).getD 0

/-- The fresh-entry check at the top of `get_flowlet_path`: the stored path
when `flow_key` has an entry and `current_time - last_time < flowlet_timeout`. -/
def FlowletRouter.freshPath (r : FlowletRouter) (flow_key : FlowKey)
    (current_time : ℚ) : Option ℕ :=
  match dlookup r.flowlet_table flow_key with
  | some (last_time, last_path) =>
      if current_time - last_time < r.flowlet_timeout then some last_path else none
  | none => none

/-- `FlowletRouter.get_flowlet_path`.  Returns the chosen path and the
updated router state; `none` models the `ValueError` Python's `min` raises on
an empty `available_paths` in the new-flowlet branch. -/
def FlowletRouter.get_flowlet_path (r : FlowletRouter) (flow_key : FlowKey)
    (available_paths : List ℕ) (current_time : ℚ) : Option (ℕ × FlowletRouter) :=
  match r.freshPath flow_key current_time with
  | some last_path =>
      some (last_path,
        { r with flowlet_table := dinsert r.flowlet_table flow_key (current_time, last_path) })
  | none =>
      match pyMin r.loadOf available_paths with
      | none => none
      | some selected_path =>
          some (selected_path,
            { r with flowlet_table := dinsert r.flowlet_table flow_key (current_time, selected_path) })

/-- `FlowletRouter.update_path_load`: `self.path_loads[path_id] += load_delta`. -/
def FlowletRouter.update_path_load (r : FlowletRouter) (path_id : ℕ)
    (load_delta : ℚ) : FlowletRouter :=
  { r with path_loads := dinsert r.path_loads path_id (r.loadOf path_id + load_delta) }

theorem get_flowlet_path_fresh (r : FlowletRouter) (key : FlowKey)
    (paths : List ℕ) (t lt : ℚ) (p : ℕ)
    (hl : dlookup r.flowlet_table key = some (lt, p))
    (hf : t - lt < r.flowlet_timeout) :
    r.get_flowlet_path key paths t =
      some (p, { r with flowlet_table := dinsert r.flowlet_table key (t, p) }) := by
  simp [FlowletRouter.get_flowlet_path, FlowletRouter.freshPath, hl, hf]

theorem get_flowlet_path_new (r : FlowletRouter) (key : FlowKey)
    (paths : List ℕ) (t : ℚ) (hstale : r.freshPath key t = none)
    (hne : paths ≠ []) :
    ∃ sel, r.get_flowlet_path key paths t =
        some (sel, { r with flowlet_table := dinsert r.flowlet_table key (t, sel) })
      ∧ sel ∈ paths ∧ (∀ q ∈ paths, r.loadOf sel ≤ r.loadOf q)
      ∧ ∃ pre post, paths = pre ++ sel :: post ∧ ∀ q ∈ pre, r.loadOf sel < r.loadOf q := by
  obtain ⟨m, hm, hmem, hmin, pre, post, hdec, hpre⟩ := pyMin_spec r.loadOf paths hne
  exact ⟨m, by simp [FlowletRouter.get_flowlet_path, hstale, hm], hmem, hmin,
    pre, post, hdec, hpre⟩

/-! ## CongestionAwareRouter (src/routing/adaptive_routing.py)

`link_stats` maps `(switch, port)` to a stats dict; `get_path_score` reads
only its `'util'` field (the other counters of the dict are never consulted
by the scoring code and are omitted from the model). -/

structure LinkStat where
  util : ℚ
deriving DecidableEq

structure CongestionAwareRouter where
  probe_interval : ℚ
  congestion_threshold : ℚ
  link_stats : List ((String × ℕ) × LinkStat)
deriving DecidableEq

/-- `CongestionAwareRouter.get_path_score`: mean of the links' most recent
utilization, `0.0` for an empty link list, a link with no recorded sample
read as `{'util': 0.0}`. -/
def CongestionAwareRouter.get_path_score (c : CongestionAwareRouter)
    (path_links : List (String × ℕ)) : ℚ :=
  if path_links = [] then 0
  else
    (path_links.foldl
        (fun acc l => acc + ((dlookup c.link_stats l).getD ⟨0⟩).util) 0)
      / path_links.length

/-- The congestion score of path `p` under `path_links_map` (missing path
ids read as an empty link list, as `path_links_map.get(path_id, [])` does). -/
def CongestionAwareRouter.scoreOf (c : CongestionAwareRouter)
    (path_links_map : List (ℕ × List (String × ℕ))) (p : ℕ) : ℚ :=
  c.get_path_score ((dlookup path_links_map p).getD [])

/-- `CongestionAwareRouter.select_path`: build the `path_scores` dict over
`available_paths`, then take Python's `min` over its keys by score.  `none`
models the `ValueError` on an empty candidate dict. -/
def CongestionAwareRouter.select_path (c : CongestionAwareRouter)
    (available_paths : List ℕ)
    (path_links_map : List (ℕ × List (String × ℕ))) : Option ℕ :=
  let path_scores :=
    available_paths.foldl (fun d p => dinsert d p (c.scoreOf path_links_map p)) []
  pyMin (fun p => (dlookup path_scores p).getD 0) (path_scores.map Prod.fst)

/-- Building the `path_scores` dict over distinct keys none of which is
already present just appends `(p, score p)` pairs in order. -/
theorem foldl_dinsert_fresh {V : Type} (f : ℕ → V) :
    ∀ (l : List ℕ) (d : List (ℕ × V)), l.Nodup → (∀ p ∈ l, dlookup d p = none) →
      l.foldl (fun d p => dinsert d p (f p)) d = d ++ l.map fun p => (p, f p) := by
  intro l
  induction l with
  | nil => intro d _ _; simp
  | cons p ps ih =>
    intro d hnd habs
    rw [List.foldl_cons, dinsert_of_not_mem d p (f p) (habs p (by simp))]
    rw [ih (d ++ [(p, f p)]) (List.nodup_cons.mp hnd).2 ?_]
    · simp
    · intro q hq
      rw [dlookup_append]
      rw [habs q (List.mem_cons_of_mem p hq)]
      have : p ≠ q := fun e => (List.nodup_cons.mp hnd).1 (e ▸ hq)
      simp [dlookup, this]

/-- On duplicate-free candidates `select_path` is Python's `min` over the
candidates keyed by congestion score. -/
theorem select_path_eq_pyMin (c : CongestionAwareRouter)
    (paths : List ℕ) (plm : List (ℕ × List (String × ℕ))) (hnd : paths.Nodup) :
    c.select_path paths plm = pyMin (c.scoreOf plm) paths := by
  unfold CongestionAwareRouter.select_path
  rw [foldl_dinsert_fresh (c.scoreOf plm) paths [] hnd (by simp [dlookup])]
  simp only [List.nil_append]
  have hkeys : (paths.map fun p => (p, c.scoreOf plm p)).map Prod.fst = paths := by
    rw [List.map_map]
    exact List.map_id paths
  rw [hkeys]
  apply pyMin_congr
  intro z hz
  rw [dlookup_map_self (c.scoreOf plm) paths z hz]
  rfl

/-- `select_path` over nonempty duplicate-free candidates: the returned path
has minimal score and ties resolve to the first-seen candidate. -/
theorem select_path_spec (c : CongestionAwareRouter)
    (paths : List ℕ) (plm : List (ℕ × List (String × ℕ)))
    (hne : paths ≠ []) (hnd : paths.Nodup) :
    ∃ best, c.select_path paths plm = some best ∧ best ∈ paths
      ∧ (∀ q ∈ paths, c.scoreOf plm best ≤ c.scoreOf plm q)
      ∧ ∃ pre post, paths = pre ++ best :: post
          ∧ ∀ q ∈ pre, c.scoreOf plm best < c.scoreOf plm q := by
  rw [select_path_eq_pyMin c paths plm hnd]
  exact pyMin_spec (c.scoreOf plm) paths hne

/-- A left fold accumulating `+ g x` from `a` is `a` plus the sum of the map. -/
theorem foldl_add_eq_sum {α : Type} (g : α → ℚ) :
    ∀ (l : List α) (a : ℚ), l.foldl (fun acc x => acc + g x) a = a + (l.map g).sum := by
  intro l
  induction l with
  | nil => intro a; simp
  | cons x xs ih => intro a; simp [ih, add_assoc]

/-- The score fold is the sum of the per-link utilizations (missing links
contributing the `0.0` default). -/
theorem get_path_score_eq_mean (c : CongestionAwareRouter)
    (links : List (String × ℕ)) (hne : links ≠ []) :
    c.get_path_score links =
      (links.map fun l => ((dlookup c.link_stats l).getD ⟨0⟩).util).sum
        / links.length := by
  unfold CongestionAwareRouter.get_path_score
  rw [if_neg hne]
  congr 1
  rw [foldl_add_eq_sum]
  simp

/-! ## AdaptiveRoutingController, hybrid mode -/

/-- Modelled from the spec: `AdaptiveRoutingController`
(src/routing/adaptive_routing.py, lines 179-209) declares the `'hybrid'`
mode and owns a `FlowletRouter` and a `CongestionAwareRouter`, but the
repository contains no per-lookup path-selection method composing them; the
composition is taken from the spec's words (§4.4): apply the flowlet
stickiness check first, and on a new flowlet choose among `availablePaths`
by the congestion score of §4.3 instead of the flowlet router's least-loaded
tie-break. -/
def hybrid_select_path (fr : FlowletRouter) (cr : CongestionAwareRouter)
    (flow_key : FlowKey) (available_paths : List ℕ)
    (path_links_map : List (ℕ × List (String × ℕ)))
    (current_time : ℚ) : Option (ℕ × FlowletRouter) :=
  match fr.freshPath flow_key current_time with
  | some last_path =>
      some (last_path,
        { fr with flowlet_table := dinsert fr.flowlet_table flow_key (current_time, last_path) })
  | none =>
      match cr.select_path available_paths path_links_map with
      | none => none
      | some selected_path =>
          some (selected_path,
            { fr with flowlet_table := dinsert fr.flowlet_table flow_key (current_time, selected_path) })

/-! ## NetworkMonitor (src/routing/monitor.py)

A sample holds, per switch name, the parsed per-port counters; only the
`tx_bytes` field is read by `compute_link_utilization`, so it is the one
counter modelled. -/

structure PortStat where
  tx_bytes : ℤ
deriving DecidableEq

structure Sample where
  switches : List (String × List (ℕ × PortStat))
deriving DecidableEq

structure NetworkMonitor where
  sample_interval : ℚ
  samples : List Sample
deriving DecidableEq

/-- Appending `v` to `utilization[k]`, creating the entry on first use
(`if link_id not in utilization: utilization[link_id] = []`). -/
def addUtil (m : List ((String × ℕ) × List ℚ)) (k : String × ℕ) (v : ℚ) :
    List ((String × ℕ) × List ℚ) :=
  match m with
  | [] => [(k, [v])]
  | (k', vs) :: rest =>
      if k' = k then (k', vs ++ [v]) :: rest else (k', vs) :: addUtil rest k v

/-- One consecutive sample pair of `compute_link_utilization`: for every
(switch, port) present in both samples, append
`(Δtx_bytes * 8 / sample_interval) / 10^9 * 100` — the link capacity is the
hard-coded `link_capacity_bps = 1000 * 1000 * 1000` (1 Gbps) and the elapsed
time is the configured `sample_interval`, not the samples' timestamps. -/
def utilizationPair (interval : ℚ) (m : List ((String × ℕ) × List ℚ))
    (prev curr : Sample) : List ((String × ℕ) × List ℚ) :=
  curr.switches.foldl
    (fun m sw =>
      match dlookup prev.switches sw.1 with
      | none => m
      | some prev_ports =>
          sw.2.foldl
            (fun m pp =>
              match dlookup prev_ports pp.1 with
              | none => m
              | some prev_stat =>
                  let bytes_delta : ℚ := (pp.2.tx_bytes - prev_stat.tx_bytes : ℤ)
                  let link_capacity_bps : ℚ := 1000 * 1000 * 1000
                  let bits_delta : ℚ := bytes_delta * 8
                  let time_delta : ℚ := interval
                  addUtil m (sw.1, pp.1) (bits_delta / time_delta / link_capacity_bps * 100))
            m)
    m

/-- `NetworkMonitor.compute_link_utilization`: per-interval percentages over
consecutive sample pairs, grouped per `(switch, port)` link. -/
def NetworkMonitor.compute_link_utilization (mon : NetworkMonitor) :
    List ((String × ℕ) × List ℚ) :=
  if mon.samples.length < 2 then []
  else
    (mon.samples.zip mon.samples.tail).foldl
      (fun m pc => utilizationPair mon.sample_interval m pc.1 pc.2) []

/-! ## FlowCompletionTracker (src/routing/monitor.py) -/

/-- Python's `max(xs)` on a nonempty list (first element as seed). -/
def pyListMax : List ℚ → ℚ
  | [] => 0
  | x :: xs => xs.foldl max x

/-- Python's `min(xs)` on a nonempty list. -/
def pyListMin : List ℚ → ℚ
  | [] => 0
  | x :: xs => xs.foldl min x

structure FctStats where
  count : ℕ
  mean : ℚ
  median : ℚ
  p95 : ℚ
  p99 : ℚ
  max : ℚ
  min : ℚ
deriving DecidableEq

/-- `FlowCompletionTracker.get_fct_stats` over the completion times of the
closed flow records, in completion order.  `fcts.sort()` is a stable
ascending sort; on plain numbers any ascending sort is extensionally the
same list, so it is modelled with insertion sort.  Python's percentile
indices `int(n * 0.95)` and `int(n * 0.99)` are modelled exactly as
`n * 95 / 100` and `n * 99 / 100` in ℕ (the binary-float products round to
the same integers at these scales); the empty case returns `{}` (`none`). -/
def get_fct_stats (completed_fcts : List ℚ) : Option FctStats :=
  if completed_fcts = [] then none
  else
    let fcts := completed_fcts.insertionSort (· ≤ ·)
    let n := fcts.length
    some
      { count := n
        mean := fcts.sum / n
        median := fcts.getD (n / 2) 0
        p95 := fcts.getD (n * 95 / 100) 0
        p99 := fcts.getD (n * 99 / 100) 0
        max := pyListMax fcts
        min := pyListMin fcts }

/-! ## ResultsAnalyzer.analyze_utilization (src/analyze_results.py)

The balance score uses numpy's population standard deviation; modelled
over ℝ since it takes a square root. -/

/-- `np.mean`. -/
noncomputable def np_mean (xs : List ℝ) : ℝ := xs.sum / xs.length

/-- `np.std` (population standard deviation). -/
noncomputable def np_std (xs : List ℝ) : ℝ :=
  Real.sqrt ((xs.map fun x => (x - np_mean xs) ^ 2).sum / xs.length)

/-- The `balance_score` computed by `ResultsAnalyzer.analyze_utilization`:
`1.0 - (np.std(mean_utils) / np.mean(mean_utils)) if np.mean(mean_utils) > 0
else 0`. -/
noncomputable def balance_score (mean_utils : List ℝ) : ℝ :=
  if 0 < np_mean mean_utils then 1 - np_std mean_utils / np_mean mean_utils else 0

/-! ## ComparisonAnalyzer.compare_metrics (src/analyze_results.py)

Only the summary fields `compare_metrics` reads are modelled: each side's
throughput summary (`mean_mbps` and the optional `fct_p99`), utilization
summary (`balance_score`) and drop summary (`total_drops`), each `Option`al
because `get_summary` can return `None` for a section. -/

structure ThroughputSummary where
  mean_mbps : ℚ
  fct_p99 : Option ℚ
deriving DecidableEq

structure UtilizationSummary where
  balance : ℚ
deriving DecidableEq

structure DropSummary where
  total_drops : ℚ
deriving DecidableEq

structure AnalysisSummary where
  throughput : Option ThroughputSummary
  utilization : Option UtilizationSummary
  drops : Option DropSummary
deriving DecidableEq

structure MetricDelta where
  ecmp : ℚ
  adaptive : ℚ
  delta_pct : ℚ
deriving DecidableEq

structure Comparison where
  throughput : Option MetricDelta
  balance : Option MetricDelta
  drops : Option MetricDelta
  tail_latency : Option MetricDelta
deriving DecidableEq

/-- `ComparisonAnalyzer.compare_metrics`.  Throughput and balance deltas are
`(adaptive - ecmp) / ecmp * 100`; the drop reduction and the p99
tail-latency improvement are `(ecmp - adaptive) / ecmp * 100`; each is
guarded to `0` when the ECMP (baseline) value is not `> 0`. -/
def compare_metrics (e a : AnalysisSummary) : Comparison :=
  { throughput :=
      match e.throughput, a.throughput with
      | some et, some at' =>
          some { ecmp := et.mean_mbps, adaptive := at'.mean_mbps
                 delta_pct :=
                   if 0 < et.mean_mbps then
                     (at'.mean_mbps - et.mean_mbps) / et.mean_mbps * 100
                   else 0 }
      | _, _ => none
    balance :=
      match e.utilization, a.utilization with
      | some eu, some au =>
          some { ecmp := eu.balance, adaptive := au.balance
                 delta_pct :=
                   if 0 < eu.balance then (au.balance - eu.balance) / eu.balance * 100
                   else 0 }
      | _, _ => none
    drops :=
      match e.drops, a.drops with
      | some ed, some ad =>
          some { ecmp := ed.total_drops, adaptive := ad.total_drops
                 delta_pct :=
                   if 0 < ed.total_drops then
                     (ed.total_drops - ad.total_drops) / ed.total_drops * 100
                   else 0 }
      | _, _ => none
    tail_latency :=
      match e.throughput, a.throughput with
      | some et, some at' =>
          match et.fct_p99, at'.fct_p99 with
          | some ef, some af =>
              some { ecmp := ef, adaptive := af
                     delta_pct := if 0 < ef then (ef - af) / ef * 100 else 0 }
          | _, _ => none
      | _, _ => none }

/-! ## ECMPRouter.build_routing_table (src/routing/ecmp_routing.py)

The routing table is built against the network that
`src/topologies/leaf_spine.py` constructs: every leaf first links its `H`
hosts (ports `1..H`), then links to every spine in order (spine `s` on port
`H + s + 1`); every spine receives one link from each leaf in leaf order
(leaf `l` on port `l + 1`).  Destination IPs `10.0.<leaf>.<host>` are
modelled as the pair `(leaf number, host number)`. -/

inductive Switch where
  | leaf (n : ℕ)
  | spine (n : ℕ)
deriving DecidableEq

structure ForwardingRule where
  dst_ip : ℕ × ℕ
  out_ports : List ℕ
deriving DecidableEq

/-- The `port_to_spine.values()` list a leaf's interface scan produces under
the leaf-spine topology: one port per spine, in spine order. -/
def leafSpinePorts (num_spines hosts_per_leaf : ℕ) : List ℕ :=
  (List.range num_spines).map fun s => hosts_per_leaf + s + 1

/-- The rules `build_routing_table` appends for one leaf switch: local hosts
to their single host port, then every remote host to the full spine fan-out. -/
def buildLeafRules (num_spines num_leaves hosts_per_leaf leaf_idx : ℕ) :
    List ForwardingRule :=
  ((List.range hosts_per_leaf).map fun h =>
      { dst_ip := (leaf_idx + 1, h + 1), out_ports := [h + 1] })
  ++ ((List.range num_leaves).flatMap fun remote_leaf_idx =>
      if remote_leaf_idx = leaf_idx then []
      else
        (List.range hosts_per_leaf).map fun h =>
          { dst_ip := (remote_leaf_idx + 1, h + 1)
            out_ports := leafSpinePorts num_spines hosts_per_leaf })

/-- The rules for one spine switch: each leaf's hosts to the single port
facing that leaf. -/
def buildSpineRules (num_leaves hosts_per_leaf : ℕ) : List ForwardingRule :=
  (List.range num_leaves).flatMap fun leaf_idx =>
    (List.range hosts_per_leaf).map fun h =>
      { dst_ip := (leaf_idx + 1, h + 1), out_ports := [leaf_idx + 1] }

/-- `ECMPRouter.build_routing_table`: leaf tables first (in leaf order),
then spine tables. -/
def build_routing_table (num_spines num_leaves hosts_per_leaf : ℕ) :
    List (Switch × List ForwardingRule) :=
  ((List.range num_leaves).map fun i =>
      (Switch.leaf (i + 1), buildLeafRules num_spines num_leaves hosts_per_leaf i))
  ++ ((List.range num_spines).map fun i =>
      (Switch.spine (i + 1), buildSpineRules num_leaves hosts_per_leaf))

/-! ## Claims -/

/-- C1.  Flowlet stickiness: a call with an entry fresher than
`flowlet_timeout` returns the previously assigned path and refreshes the
entry's timestamp to `current_time`, so a further call for the same key
within `flowlet_timeout` of this one again returns the same path. -/
theorem flowlet_stickiness (r : FlowletRouter) (key : FlowKey)
    (paths : List ℕ) (t lt : ℚ) (p : ℕ)
    (hl : dlookup r.flowlet_table key = some (lt, p))
    (hf : t - lt < r.flowlet_timeout) :
    r.get_flowlet_path key paths t =
      some (p, { r with flowlet_table := dinsert r.flowlet_table key (t, p) })
    ∧ ∀ (t2 : ℚ) (paths2 : List ℕ), t2 - t < r.flowlet_timeout →
        (({ r with flowlet_table := dinsert r.flowlet_table key (t, p) } :
            FlowletRouter).get_flowlet_path key paths2 t2).map Prod.fst = some p := by
  refine ⟨get_flowlet_path_fresh r key paths t lt p hl hf, ?_⟩
  intro t2 paths2 hf2
  rw [get_flowlet_path_fresh
      { r with flowlet_table := dinsert r.flowlet_table key (t, p) } key paths2 t2 t p
      (dlookup_dinsert_self r.flowlet_table key (t, p)) hf2]
  rfl

theorem flowlet_stickiness_witness :
    ((⟨1, [((0, 0, 0), (0, 7))], []⟩ : FlowletRouter).get_flowlet_path
        (0, 0, 0) [1, 2] (1/2)).map Prod.fst = some 7 := by
  rw [(flowlet_stickiness ⟨1, [((0, 0, 0), (0, 7))], []⟩ (0, 0, 0) [1, 2] (1/2) 0 7
      (by norm_num [dlookup]) (by norm_num)).1]
  rfl

/-- C2 counterexample.  With an empty flowlet table, all path loads equal
(both default to 0) and `available_paths = [2, 1]`, `get_flowlet_path`
returns path 2, the first-listed candidate, although path 1 carries the same
load and has the smaller identifier — so ties are not broken by path
identifier ascending. -/
theorem new_flowlet_tiebreak_counterexample :
    ((⟨1, [], []⟩ : FlowletRouter).get_flowlet_path (0, 0, 0) [2, 1] 0).map Prod.fst
        = some 2
    ∧ (⟨1, [], []⟩ : FlowletRouter).loadOf 1 = (⟨1, [], []⟩ : FlowletRouter).loadOf 2
    ∧ (1 : ℕ) < 2 := by
  refine ⟨?_, rfl, by norm_num⟩
  norm_num [FlowletRouter.get_flowlet_path, FlowletRouter.freshPath,
    FlowletRouter.loadOf, pyMin, dlookup]

/-- C2 amended.  For a new (absent or stale) flowlet and nonempty
`available_paths`, `get_flowlet_path` records and returns a path of minimal
current load, breaking ties by first occurrence in `available_paths`
(Python's `min`); the choice depends only on the loads of the candidates, so
the same load state yields the same choice. -/
theorem new_flowlet_least_loaded (r : FlowletRouter) (key : FlowKey)
    (paths : List ℕ) (t : ℚ)
    (hstale : r.freshPath key t = none) (hne : paths ≠ []) :
    ∃ sel, r.get_flowlet_path key paths t =
        some (sel, { r with flowlet_table := dinsert r.flowlet_table key (t, sel) })
      ∧ sel ∈ paths ∧ (∀ q ∈ paths, r.loadOf sel ≤ r.loadOf q)
      ∧ (∃ pre post, paths = pre ++ sel :: post ∧ ∀ q ∈ pre, r.loadOf sel < r.loadOf q)
      ∧ ∀ r2 : FlowletRouter, (∀ q ∈ paths, r2.loadOf q = r.loadOf q) →
          r2.freshPath key t = none →
          (r2.get_flowlet_path key paths t).map Prod.fst = some sel := by
  obtain ⟨sel, heq, hmem, hmin, hdec, hpre⟩ := get_flowlet_path_new r key paths t hstale hne
  refine ⟨sel, heq, hmem, hmin, ⟨hdec, hpre⟩, ?_⟩
  intro r2 hloads hstale2
  have hpm : pyMin r2.loadOf paths = pyMin r.loadOf paths := pyMin_congr _ _ paths hloads
  have hpm2 : pyMin r.loadOf paths = some sel := by
    cases hsel : pyMin r.loadOf paths with
    | none =>
      cases paths with
      | nil => exact absurd rfl hne
      | cons x xs => simp [pyMin] at hsel
    | some m =>
      have := heq
      simp only [FlowletRouter.get_flowlet_path, hstale, hsel] at this
      simp only [Option.some.injEq, Prod.mk.injEq] at this
      rw [this.1]
  simp [FlowletRouter.get_flowlet_path, hstale2, hpm, hpm2]

theorem new_flowlet_least_loaded_witness :
    ∃ sel, (⟨1, [], [(5, 3)]⟩ : FlowletRouter).get_flowlet_path (0, 0, 0) [5, 4] 0 =
        some (sel,
          { (⟨1, [], [(5, 3)]⟩ : FlowletRouter) with
              flowlet_table := dinsert [] (0, 0, 0) (0, sel) })
      ∧ sel ∈ [5, 4]
      ∧ (∀ q ∈ [5, 4], (⟨1, [], [(5, 3)]⟩ : FlowletRouter).loadOf sel ≤
            (⟨1, [], [(5, 3)]⟩ : FlowletRouter).loadOf q)
      ∧ (∃ pre post, [5, 4] = pre ++ sel :: post ∧ ∀ q ∈ pre,
            (⟨1, [], [(5, 3)]⟩ : FlowletRouter).loadOf sel <
              (⟨1, [], [(5, 3)]⟩ : FlowletRouter).loadOf q)
      ∧ ∀ r2 : FlowletRouter, (∀ q ∈ [5, 4], r2.loadOf q =
            (⟨1, [], [(5, 3)]⟩ : FlowletRouter).loadOf q) →
          r2.freshPath (0, 0, 0) 0 = none →
          (r2.get_flowlet_path (0, 0, 0) [5, 4] 0).map Prod.fst = some sel :=
  new_flowlet_least_loaded ⟨1, [], [(5, 3)]⟩ (0, 0, 0) [5, 4] 0 rfl (by simp)

/-- C10.  With an empty `available_paths` the call still returns the stored
path when the entry is fresh, and fails (Python's `min` over an empty
sequence) on the new-flowlet branch; with nonempty `available_paths` it
always returns, and the result is an element of `available_paths` or the
path previously stored for the key. -/
theorem get_flowlet_path_empty_paths (r : FlowletRouter) (key : FlowKey) (t : ℚ) :
    (∀ lt p, dlookup r.flowlet_table key = some (lt, p) → t - lt < r.flowlet_timeout →
        r.get_flowlet_path key [] t =
          some (p, { r with flowlet_table := dinsert r.flowlet_table key (t, p) }))
    ∧ (r.freshPath key t = none → r.get_flowlet_path key [] t = none)
    ∧ ∀ paths : List ℕ, paths ≠ [] →
        ∃ sel r', r.get_flowlet_path key paths t = some (sel, r')
          ∧ (sel ∈ paths ∨ ∃ lt, dlookup r.flowlet_table key = some (lt, sel)) := by
  refine ⟨fun lt p hl hf => get_flowlet_path_fresh r key [] t lt p hl hf, ?_, ?_⟩
  · intro hstale
    simp [FlowletRouter.get_flowlet_path, hstale, pyMin]
  · intro paths hne
    cases hfp : r.freshPath key t with
    | some lp =>
      refine ⟨lp, { r with flowlet_table := dinsert r.flowlet_table key (t, lp) },
        ?_, Or.inr ?_⟩
      · simp [FlowletRouter.get_flowlet_path, hfp]
      · unfold FlowletRouter.freshPath at hfp
        cases hl : dlookup r.flowlet_table key with
        | none => rw [hl] at hfp; exact absurd hfp (by simp)
        | some v =>
          rw [hl] at hfp
          by_cases hc : t - v.1 < r.flowlet_timeout
          · simp only [hc, if_pos] at hfp
            have h2 : v.2 = lp := by injection hfp
            exact ⟨v.1, by rw [← h2]⟩
          · simp [hc] at hfp
    | none =>
      obtain ⟨sel, heq, hmem, _⟩ := get_flowlet_path_new r key paths t hfp hne
      exact ⟨sel, _, heq, Or.inl hmem⟩

/-- C3.  Congestion scoring: an empty link list scores 0; otherwise the
score is the arithmetic mean of the links' most recent recorded utilization,
a link with no sample contributing the 0 default; `select_path` over a
nonempty (duplicate-free) `available_paths` returns the candidate of minimal
score, ties resolved by first-seen order in `available_paths`. -/
theorem congestion_score_selection (c : CongestionAwareRouter)
    (paths : List ℕ) (plm : List (ℕ × List (String × ℕ)))
    (hne : paths ≠ []) (hnd : paths.Nodup) :
    (∃ best, c.select_path paths plm = some best ∧ best ∈ paths
      ∧ (∀ q ∈ paths, c.scoreOf plm best ≤ c.scoreOf plm q)
      ∧ ∃ pre post, paths = pre ++ best :: post
          ∧ ∀ q ∈ pre, c.scoreOf plm best < c.scoreOf plm q)
    ∧ c.get_path_score [] = 0
    ∧ (∀ links : List (String × ℕ), links ≠ [] →
        c.get_path_score links =
          (links.map fun l => ((dlookup c.link_stats l).getD ⟨0⟩).util).sum
            / links.length)
    ∧ ∀ l : String × ℕ, dlookup c.link_stats l = none →
        ((dlookup c.link_stats l).getD ⟨0⟩).util = 0 := by
  refine ⟨select_path_spec c paths plm hne hnd, rfl,
    fun links h => get_path_score_eq_mean c links h, ?_⟩
  intro l hl
  rw [hl]
  rfl

theorem congestion_score_selection_witness :
    (∃ best, CongestionAwareRouter.select_path
          ⟨1/10, 7/10, [(("s1", 1), ⟨1/2⟩)]⟩ [1, 2] [(1, [("s1", 1)]), (2, [])] = some best
        ∧ best ∈ [1, 2]
        ∧ (∀ q ∈ [1, 2],
            CongestionAwareRouter.scoreOf ⟨1/10, 7/10, [(("s1", 1), ⟨1/2⟩)]⟩
                [(1, [("s1", 1)]), (2, [])] best ≤
              CongestionAwareRouter.scoreOf ⟨1/10, 7/10, [(("s1", 1), ⟨1/2⟩)]⟩
                [(1, [("s1", 1)]), (2, [])] q)
        ∧ ∃ pre post, [1, 2] = pre ++ best :: post
            ∧ ∀ q ∈ pre,
                CongestionAwareRouter.scoreOf ⟨1/10, 7/10, [(("s1", 1), ⟨1/2⟩)]⟩
                    [(1, [("s1", 1)]), (2, [])] best <
                  CongestionAwareRouter.scoreOf ⟨1/10, 7/10, [(("s1", 1), ⟨1/2⟩)]⟩
                    [(1, [("s1", 1)]), (2, [])] q)
    ∧ CongestionAwareRouter.get_path_score ⟨1/10, 7/10, [(("s1", 1), ⟨1/2⟩)]⟩ [] = 0
    ∧ (∀ links : List (String × ℕ), links ≠ [] →
        CongestionAwareRouter.get_path_score ⟨1/10, 7/10, [(("s1", 1), ⟨1/2⟩)]⟩ links =
          (links.map fun l =>
              ((dlookup (⟨1/10, 7/10, [(("s1", 1), ⟨1/2⟩)]⟩ :
                  CongestionAwareRouter).link_stats l).getD ⟨0⟩).util).sum
            / links.length)
    ∧ ∀ l : String × ℕ,
        dlookup (⟨1/10, 7/10, [(("s1", 1), ⟨1/2⟩)]⟩ :
            CongestionAwareRouter).link_stats l = none →
        ((dlookup (⟨1/10, 7/10, [(("s1", 1), ⟨1/2⟩)]⟩ :
            CongestionAwareRouter).link_stats l).getD ⟨0⟩).util = 0 :=
  congestion_score_selection ⟨1/10, 7/10, [(("s1", 1), ⟨1/2⟩)]⟩ [1, 2]
    [(1, [("s1", 1)]), (2, [])] (by simp) (by simp)

/-- C4.  Hybrid-mode composition (spec-modelled selector over the two
routers embedded from the source): the flowlet stickiness check applies
first — a lookup within `flowlet_timeout` of the key's last activity returns
the stored path — and a new flowlet is chosen among `available_paths` by the
congestion score (the choice of `CongestionAwareRouter.select_path`), not by
the flowlet router's least-loaded rule. -/
theorem hybrid_mode_composition (fr : FlowletRouter) (cr : CongestionAwareRouter) :
    (∀ (key : FlowKey) (paths : List ℕ) (plm : List (ℕ × List (String × ℕ)))
        (t lt : ℚ) (p : ℕ),
        dlookup fr.flowlet_table key = some (lt, p) → t - lt < fr.flowlet_timeout →
        hybrid_select_path fr cr key paths plm t =
          some (p, { fr with flowlet_table := dinsert fr.flowlet_table key (t, p) }))
    ∧ ∀ (key : FlowKey) (paths : List ℕ) (plm : List (ℕ × List (String × ℕ))) (t : ℚ),
        fr.freshPath key t = none → paths ≠ [] → paths.Nodup →
        ∃ sel, hybrid_select_path fr cr key paths plm t =
            some (sel, { fr with flowlet_table := dinsert fr.flowlet_table key (t, sel) })
          ∧ cr.select_path paths plm = some sel
          ∧ sel ∈ paths ∧ (∀ q ∈ paths, cr.scoreOf plm sel ≤ cr.scoreOf plm q)
          ∧ ∃ pre post, paths = pre ++ sel :: post
              ∧ ∀ q ∈ pre, cr.scoreOf plm sel < cr.scoreOf plm q := by
  constructor
  · intro key paths plm t lt p hl hf
    simp [hybrid_select_path, FlowletRouter.freshPath, hl, hf]
  · intro key paths plm t hstale hne hnd
    obtain ⟨best, hb, hmem, hmin, hdec⟩ := select_path_spec cr paths plm hne hnd
    exact ⟨best, by simp [hybrid_select_path, hstale, hb], hb, hmem, hmin, hdec⟩

/-- C5 counterexample.  Two samples of a link whose cumulative tx bytes grow
by 125000 with `sample_interval = 1`: `compute_link_utilization` yields
0.1%, not the 100% the claim computes for a link of capacity 10^6 bits/sec —
the code divides by the hard-coded 1 Gbps capacity and by the configured
interval, never by a per-link capacity. -/
theorem link_utilization_counterexample :
    NetworkMonitor.compute_link_utilization
        ⟨1, [⟨[("leaf1", [(1, ⟨0⟩)])]⟩, ⟨[("leaf1", [(1, ⟨125000⟩)])]⟩]⟩
      = [(("leaf1", 1), [1/10])]
    ∧ (1/10 : ℚ) ≠ 100 := by
  constructor
  · norm_num [NetworkMonitor.compute_link_utilization, utilizationPair, addUtil,
      dlookup, List.zip, List.zipWith]
  · norm_num

/-- C5 amended.  For a link present in consecutive samples,
`compute_link_utilization` appends, per consecutive pair, the percentage
`Δtx_bytes * 8 / sample_interval / 10^9 * 100`: the elapsed time is the
configured `sample_interval` (not the distance between the samples'
timestamps) and the capacity is the hard-coded 1 Gbps. -/
theorem link_utilization_formula (interval : ℚ) (sw : String) (port : ℕ) (a b c : ℤ) :
    NetworkMonitor.compute_link_utilization
        ⟨interval, [⟨[(sw, [(port, ⟨a⟩)])]⟩, ⟨[(sw, [(port, ⟨b⟩)])]⟩, ⟨[(sw, [(port, ⟨c⟩)])]⟩]⟩
      = [((sw, port),
          [((b - a : ℤ) : ℚ) * 8 / interval / (1000 * 1000 * 1000) * 100,
           ((c - b : ℤ) : ℚ) * 8 / interval / (1000 * 1000 * 1000) * 100])] := by
  simp [NetworkMonitor.compute_link_utilization, utilizationPair, addUtil,
    dlookup, List.zip, List.zipWith, List.foldl]

/-- C6 counterexample.  For completion times 1..10 seconds the median the
code returns is the value at index `10 // 2 = 5` of the sorted list, which
is 6, not 5. -/
theorem fct_median_counterexample :
    (get_fct_stats [1, 2, 3, 4, 5, 6, 7, 8, 9, 10]).map (fun s => s.median) = some 6
    ∧ (6 : ℚ) ≠ 5 := by
  constructor
  · norm_num [get_fct_stats, List.insertionSort, List.orderedInsert]
    exact ⟨_, ⟨by simp, rfl⟩, rfl⟩
  · norm_num

/-- C6 amended.  `get_fct_stats` selects percentiles by index on the sorted
completion times: for [1,...,10], p95 is the value at index
`int(10 * 0.95) = 9`, i.e. 10; p99 the value at index `int(10 * 0.99) = 9`,
i.e. 10; and the median the value at index `10 // 2 = 5`, i.e. 6 — the
index-based, not interpolated, selection. -/
theorem fct_percentile_selection :
    (get_fct_stats [1, 2, 3, 4, 5, 6, 7, 8, 9, 10]).map
        (fun s => (s.median, s.p95, s.p99)) = some (6, 10, 10)
    ∧ (10 * 95 / 100 = 9 ∧ 10 * 99 / 100 = 9 ∧ 10 / 2 = 5) := by
  constructor
  · norm_num [get_fct_stats, List.insertionSort, List.orderedInsert]
    exact ⟨_, ⟨by simp, rfl⟩, rfl, rfl, rfl⟩
  · norm_num

/-- C7.  Balance score: `1 - stddev/mean` of the per-link mean utilizations,
0 whenever the mean is 0; four links at mean utilization 10 score 1.0 and
four links at 0 score 0. -/
theorem balance_score_guard_and_examples :
    (∀ mean_utils : List ℝ, np_mean mean_utils = 0 → balance_score mean_utils = 0)
    ∧ balance_score [10, 10, 10, 10] = 1
    ∧ balance_score [0, 0, 0, 0] = 0 := by
  refine ⟨?_, ?_, ?_⟩
  · intro xs h
    rw [balance_score, h]
    simp
  · have hm : np_mean [10, 10, 10, 10] = 10 := by
      norm_num [np_mean]
    have hs : np_std [10, 10, 10, 10] = 0 := by
      rw [np_std, hm]
      norm_num [Real.sqrt_zero]
    rw [balance_score, hm, hs]
    norm_num
  · have hm : np_mean [0, 0, 0, 0] = 0 := by
      norm_num [np_mean]
    rw [balance_score, hm]
    simp

/-- C8 counterexample.  Baseline 10 total drops against adaptive 5:
`compare_metrics` reports a drop reduction of +50%, while the claimed
uniform rule `(new - old) / old * 100` yields -50% — the drop and
tail-latency deltas are computed with the opposite sign. -/
theorem compare_metrics_sign_counterexample :
    (compare_metrics ⟨none, none, some ⟨10⟩⟩ ⟨none, none, some ⟨5⟩⟩).drops =
      some ⟨10, 5, 50⟩
    ∧ ((5 - 10 : ℚ) / 10 * 100 = -50) ∧ (50 : ℚ) ≠ -50 := by
  refine ⟨?_, by norm_num, by norm_num⟩
  norm_num [compare_metrics]

/-- C8 amended.  Throughput and balance deltas follow
`(new - old) / old * 100`; the drop reduction and p99 tail-latency
improvement follow `(old - new) / old * 100` (positive when the adaptive
value is lower); all four are guarded to 0 when the baseline value is 0, so
no comparison divides by zero — in particular a baseline with 0 total drops
yields a reduction of 0. -/
theorem compare_metrics_zero_guards :
    (∀ e a : AnalysisSummary, ∀ et at' : ThroughputSummary,
        e.throughput = some et → a.throughput = some at' → et.mean_mbps = 0 →
        (compare_metrics e a).throughput = some ⟨et.mean_mbps, at'.mean_mbps, 0⟩)
    ∧ (∀ e a : AnalysisSummary, ∀ eu au : UtilizationSummary,
        e.utilization = some eu → a.utilization = some au → eu.balance = 0 →
        (compare_metrics e a).balance = some ⟨eu.balance, au.balance, 0⟩)
    ∧ (∀ e a : AnalysisSummary, ∀ ed ad : DropSummary,
        e.drops = some ed → a.drops = some ad → ed.total_drops = 0 →
        (compare_metrics e a).drops = some ⟨ed.total_drops, ad.total_drops, 0⟩)
    ∧ (∀ e a : AnalysisSummary, ∀ et at' : ThroughputSummary, ∀ ef af : ℚ,
        e.throughput = some et → a.throughput = some at' →
        et.fct_p99 = some ef → at'.fct_p99 = some af → ef = 0 →
        (compare_metrics e a).tail_latency = some ⟨ef, af, 0⟩)
    ∧ ∀ e a : AnalysisSummary, ∀ ed ad : DropSummary,
        e.drops = some ed → a.drops = some ad →
        0 ≤ ad.total_drops → ad.total_drops < ed.total_drops →
        ∃ d, (compare_metrics e a).drops = some d ∧ 0 < d.delta_pct := by
  refine ⟨?_, ?_, ?_, ?_, ?_⟩
  · intro e a et at' he ha hz
    simp [compare_metrics, he, ha, hz]
  · intro e a eu au he ha hz
    simp [compare_metrics, he, ha, hz]
  · intro e a ed ad he ha hz
    simp [compare_metrics, he, ha, hz]
  · intro e a et at' ef af he ha hef haf hz
    simp [compare_metrics, he, ha, hef, haf, hz]
  · intro e a ed ad he ha hnn hlt
    have hpos : 0 < ed.total_drops := lt_of_le_of_lt hnn hlt
    refine ⟨⟨ed.total_drops, ad.total_drops,
      (ed.total_drops - ad.total_drops) / ed.total_drops * 100⟩, ?_, ?_⟩
    · simp [compare_metrics, he, ha, hpos]
    · have hd : 0 < (ed.total_drops - ad.total_drops) / ed.total_drops :=
        div_pos (by linarith) hpos
      have : 0 < (ed.total_drops - ad.total_drops) / ed.total_drops * 100 := by
        positivity
      simpa using this

/-- C9.  ECMP completeness over the leaf-spine topology: every leaf's table
has, for each directly-attached host, an entry with exactly 1 egress port,
and for each remote host an entry with exactly `S` egress ports (one per
spine); moreover every rule of the leaf's table has 1 port exactly when its
destination is local and `S` ports exactly when it is remote. -/
theorem ecmp_completeness (S L H leaf_idx : ℕ) (hlt : leaf_idx < L) :
    ∃ rs, dlookup (build_routing_table S L H) (Switch.leaf (leaf_idx + 1)) = some rs
      ∧ (∀ h, h < H →
          ({ dst_ip := (leaf_idx + 1, h + 1), out_ports := [h + 1] } : ForwardingRule) ∈ rs)
      ∧ (∀ r h, r < L → r ≠ leaf_idx → h < H →
          ({ dst_ip := (r + 1, h + 1),
             out_ports := leafSpinePorts S H } : ForwardingRule) ∈ rs)
      ∧ (leafSpinePorts S H).length = S
      ∧ ∀ rule ∈ rs,
          (rule.dst_ip.1 = leaf_idx + 1 → rule.out_ports.length = 1)
          ∧ (rule.dst_ip.1 ≠ leaf_idx + 1 → rule.out_ports.length = S) := by
  refine ⟨buildLeafRules S L H leaf_idx, ?_, ?_, ?_, ?_, ?_⟩
  · rw [build_routing_table, dlookup_append]
    have hinj : Function.Injective fun i => Switch.leaf (i + 1) := by
      intro a b hab
      simpa using hab
    rw [dlookup_map_of_mem (fun i => Switch.leaf (i + 1))
      (fun i => buildLeafRules S L H i) hinj (List.range L) leaf_idx
      (List.mem_range.mpr hlt)]
  · intro h hh
    apply List.mem_append_left
    exact List.mem_map.mpr ⟨h, List.mem_range.mpr hh, rfl⟩
  · intro r h hr hne hh
    apply List.mem_append_right
    refine List.mem_flatMap.mpr ⟨r, List.mem_range.mpr hr, ?_⟩
    rw [if_neg hne]
    exact List.mem_map.mpr ⟨h, List.mem_range.mpr hh, rfl⟩
  · simp [leafSpinePorts]
  · intro rule hrule
    rcases List.mem_append.mp hrule with hl | hr
    · obtain ⟨h, _, hrl⟩ := List.mem_map.mp hl
      subst hrl
      exact ⟨fun _ => rfl, fun hne => absurd rfl hne⟩
    · obtain ⟨r, hrm, hmem⟩ := List.mem_flatMap.mp hr
      by_cases hcase : r = leaf_idx
      · rw [if_pos hcase] at hmem
        cases hmem
      · rw [if_neg hcase] at hmem
        obtain ⟨h, _, hrl⟩ := List.mem_map.mp hmem
        subst hrl
        constructor
        · intro heq
          have hr1 : r + 1 = leaf_idx + 1 := heq
          exact absurd (by omega : r = leaf_idx) hcase
        · intro _
          simp [leafSpinePorts]

theorem ecmp_completeness_witness :
    ∃ rs, dlookup (build_routing_table 2 2 2) (Switch.leaf 1) = some rs
      ∧ (∀ h, h < 2 →
          ({ dst_ip := (1, h + 1), out_ports := [h + 1] } : ForwardingRule) ∈ rs)
      ∧ (∀ r h, r < 2 → r ≠ 0 → h < 2 →
          ({ dst_ip := (r + 1, h + 1),
             out_ports := leafSpinePorts 2 2 } : ForwardingRule) ∈ rs)
      ∧ (leafSpinePorts 2 2).length = 2
      ∧ ∀ rule ∈ rs,
          (rule.dst_ip.1 = 1 → rule.out_ports.length = 1)
          ∧ (rule.dst_ip.1 ≠ 1 → rule.out_ports.length = 2) :=
  ecmp_completeness 2 2 2 0 (by norm_num)

end AdaptiveRouting
